import Mathlib

/-!
Verification of the recursive-language-model document-analysis core.

JavaScript strings are modelled as `List Char`; JavaScript numbers that hold
token counts, lengths and indices as `Nat`; confidences and similarity scores
as `ℚ`.  Fallible operations are modelled with `Option`/`Except`.  Each
definition is a shallow embedding of the corresponding function of the
repository (`src/lib/analysis/chunking.ts`, `src/lib/retrieval.ts`,
`src/lib/utils/concurrency.ts`, `src/lib/analysis/analyze.ts`,
`src/lib/graph.ts`, and the streaming orchestrator route).
-/

/-- JavaScript strings, modelled as lists of characters. -/
abbrev JStr := List Char

/-- Whitespace characters recognised by the embedding: the ASCII whitespace
class used by JavaScript `\s`, `String.prototype.trim` and friends
(space, tab, newline, carriage return, vertical tab, form feed). -/
def isWs (c : Char) : Bool :=
  c = ' ' || c = '\t' || c = '\n' || c = '\r' || c = '\x0b' || c = '\x0c'

/-- `String.prototype.trim`: drop leading and trailing whitespace. -/
def trimStr (l : JStr) : JStr :=
  ((l.dropWhile isWs).reverse.dropWhile isWs).reverse

/-- The double-newline separator used by the chunker (`"\n\n"`). -/
def nlnl : JStr := ['\n', '\n']

/-- Tail part of separator-joining: `joinSepTail [b, c] = sep ++ b ++ sep ++ c`. -/
def joinSepTail : List JStr → JStr
  | [] => []
  | y :: ys => nlnl ++ y ++ joinSepTail ys

/-- `parts.join("\n\n")`. -/
def joinSep : List JStr → JStr
  | [] => []
  | x :: xs => x ++ joinSepTail xs

/-- Deduplication keeping the first occurrence, as `[...new Set(list)]` does
in JavaScript.  `seen` accumulates the elements already emitted. -/
def dedupFirstAux {α : Type} [DecidableEq α] : List α → List α → List α
  | [], _ => []
  | x :: xs, seen =>
    if x ∈ seen then dedupFirstAux xs seen else x :: dedupFirstAux xs (x :: seen)

/-- `[...new Set(list)]`: keep the first occurrence of each element. -/
def dedupFirst {α : Type} [DecidableEq α] (l : List α) : List α :=
  dedupFirstAux l []

/-- Decimal digits of `n+1`-style positive numbers, most significant first.
The first argument is structural fuel; `natDigitsAux n n` is exact for `n`
because `n / 10 < n` at every step. -/
def natDigitsAux : Nat → Nat → List Char
  | 0, _ => []
  | _ + 1, 0 => []
  | fuel + 1, n + 1 => natDigitsAux fuel ((n + 1) / 10) ++ [Nat.digitChar ((n + 1) % 10)]

/-- JavaScript number-to-string conversion (template literal `${n}`) for
natural numbers: the usual decimal representation. -/
def natStr (n : Nat) : JStr :=
  if n = 0 then ['0'] else natDigitsAux n n

/-! ### Chunker (`src/lib/analysis/chunking.ts`) -/

/-- A document passed to the analyzer: `{ id: string, text: string }`. -/
structure DocumentInput where
  id : JStr
  text : JStr

/-- A chunk as produced by `buildChunks`.  The source field `end` is a Lean
keyword and is called `endOff` here. -/
structure Chunk where
  id : JStr
  docId : JStr
  index : Nat
  text : JStr
  start : Nat
  endOff : Nat
deriving DecidableEq

/-- Scanner for the `\s*\n` part of the paragraph separator regex
`/\n\s*\n/`: starting after an initial `'\n'`, greedily consume whitespace
and remember the remainder just after the last `'\n'` seen (`acc`), which is
where a backtracking greedy `\s*` followed by `\n` ends its match.  Returns
`none` when no further `'\n'` occurs before the first non-whitespace
character, i.e. the regex does not match at this position. -/
def sepScan : List Char → Option (List Char) → Option (List Char)
  | [], acc => acc
  | c :: rest, acc =>
    if isWs c then sepScan rest (if c = '\n' then some rest else acc) else acc

theorem sepScan_length : ∀ (l : List Char) (acc r : List Char),
    sepScan l (some acc) = some r → r.length < l.length ∨ r = acc
  | [], _, _, h => by
    simp [sepScan] at h
    exact Or.inr h.symm
  | c :: rest, acc, r, h => by
    simp only [sepScan] at h
    by_cases hws : isWs c
    · rw [if_pos hws] at h
      by_cases hnl : c = '\n'
      · rw [if_pos hnl] at h
        rcases sepScan_length rest rest r h with h1 | h1
        · exact Or.inl (Nat.lt_trans h1 (Nat.lt_succ_self _))
        · exact Or.inl (h1 ▸ Nat.lt_succ_self _)
      · rw [if_neg hnl] at h
        rcases sepScan_length rest acc r h with h1 | h1
        · exact Or.inl (Nat.lt_trans h1 (Nat.lt_succ_self _))
        · exact Or.inr h1
    · rw [if_neg hws] at h
      exact Or.inr (Option.some.inj h).symm

theorem sepScan_none_length : ∀ (l r : List Char),
    sepScan l none = some r → r.length < l.length
  | [], _, h => by simp [sepScan] at h
  | c :: rest, r, h => by
    simp only [sepScan] at h
    by_cases hws : isWs c
    · rw [if_pos hws] at h
      by_cases hnl : c = '\n'
      · rw [if_pos hnl] at h
        rcases sepScan_length rest rest r h with h1 | h1
        · exact Nat.lt_trans h1 (Nat.lt_succ_self _)
        · exact h1 ▸ Nat.lt_succ_self _
      · rw [if_neg hnl] at h
        exact Nat.lt_trans (sepScan_none_length rest r h) (Nat.lt_succ_self _)
    · rw [if_neg hws] at h
      exact absurd h (by simp)

/-- `text.split(/\n\s*\n/g)`: split on blank-line separators.  `cur` holds the
characters of the current part in reverse.  A separator starts at a `'\n'`
whose following whitespace contains another `'\n'` (see `sepScan`). -/
def splitBlank (l : List Char) (cur : List Char) : List (List Char) :=
  match l with
  | [] => [cur.reverse]
  | c :: rest =>
    if c = '\n' then
      match h : sepScan rest none with
      | some rest2 => cur.reverse :: splitBlank rest2 []
      | none => splitBlank rest (c :: cur)
    else splitBlank rest (c :: cur)
termination_by l.length
decreasing_by
· exact Nat.lt_trans (sepScan_none_length _ _ h) (Nat.lt_succ_self _)
· exact Nat.lt_succ_self _
· exact Nat.lt_succ_self _

/-- `splitParagraphs` from the chunker: split on blank lines, trim every
part, drop the empty ones. -/
def splitParagraphs (text : JStr) : List JStr :=
  ((splitBlank text []).map trimStr).filter (fun p => p ≠ [])

/-- Mutable state of the chunk-building loop for one document. -/
structure ChunkSt where
  chunks : List Chunk
  buffer : JStr
  startOffset : Nat
  chunkIndex : Nat
  cursor : Nat

/-- `doc-${docIndex+1}-chunk-${chunkIndex+1}`. -/
def mkChunkId (docIdx chunkIndex : Nat) : JStr :=
  "doc-".data ++ natStr (docIdx + 1) ++ "-chunk-".data ++ natStr (chunkIndex + 1)

/-- The `flush(endOffset)` closure of `buildChunks`: emit the buffer as a
chunk unless it trims to nothing, then reset the buffer and advance
`startOffset` and `chunkIndex`. -/
def flushSt (docIdx : Nat) (docId : JStr) (endOffset : Nat) (st : ChunkSt) : ChunkSt :=
  if trimStr st.buffer = [] then st
  else
    { chunks := st.chunks ++
        [{ id := mkChunkId docIdx st.chunkIndex
           docId := docId
           index := st.chunkIndex
           text := trimStr st.buffer
           start := st.startOffset
           endOff := endOffset }]
      buffer := []
      startOffset := endOffset
      chunkIndex := st.chunkIndex + 1
      cursor := st.cursor }

/-- One iteration of the `paragraphs.forEach` body of `buildChunks`:
pre-flush when appending would overflow a non-empty buffer, append the
paragraph, advance the cursor by `paragraph.length + 2`, and post-flush when
the buffer has reached `chunkSize`. -/
def stepPara (docIdx : Nat) (docId : JStr) (chunkSize : Nat) (st : ChunkSt) (p : JStr) :
    ChunkSt :=
  let next := if st.buffer = [] then p else st.buffer ++ nlnl ++ p
  let st1 := if chunkSize < next.length ∧ st.buffer ≠ [] then
      flushSt docIdx docId st.cursor st
    else st
  let st2 : ChunkSt :=
    { st1 with
      buffer := if st1.buffer = [] then p else st1.buffer ++ nlnl ++ p
      cursor := st1.cursor + p.length + 2 }
  if chunkSize ≤ st2.buffer.length then flushSt docIdx docId st2.cursor st2 else st2

/-- `buildChunks` restricted to the document at position `docIdx`: fold the
paragraph loop over the document's paragraphs and flush the remainder. -/
def buildChunksDoc (docIdx : Nat) (doc : DocumentInput) (chunkSize : Nat) : List Chunk :=
  let ps := splitParagraphs doc.text
  let final := ps.foldl (stepPara docIdx doc.id chunkSize) ⟨[], [], 0, 0, 0⟩
  (flushSt docIdx doc.id final.cursor final).chunks

/-- The chunker's default `chunkSize`. -/
def DEFAULT_CHUNK_SIZE : Nat := 1800

/-- Helper of `buildChunks`: process the documents from position `i` on. -/
def buildChunksFrom (chunkSize : Nat) : Nat → List DocumentInput → List Chunk
  | _, [] => []
  | i, d :: ds => buildChunksDoc i d chunkSize ++ buildChunksFrom chunkSize (i + 1) ds

/-- `buildChunks(documents, options)`: chunk every document in order, with
the optional `chunkSize` defaulting to 1800. -/
def buildChunks (documents : List DocumentInput) (chunkSize : Option Nat) : List Chunk :=
  buildChunksFrom (chunkSize.getD DEFAULT_CHUNK_SIZE) 0 documents

/-! ### Ranker (`src/lib/retrieval.ts`) -/

/-- Membership of the character class `[a-z0-9]` used by the ranker's
tokenizer (applied to lower-cased text). -/
def isAlnum (c : Char) : Bool :=
  ('a' ≤ c && c ≤ 'z') || ('0' ≤ c && c ≤ '9')

/-- Splitting on runs of non-alphanumeric characters with empty tokens
dropped: the composition `.split(/[^a-z0-9]+/g).filter(Boolean)`.  `cur`
holds the current token in reverse. -/
def tokenizeAux : List Char → List Char → List JStr
  | [], cur => if cur = [] then [] else [cur.reverse]
  | c :: rest, cur =>
    if isAlnum c then tokenizeAux rest (c :: cur)
    else if cur = [] then tokenizeAux rest []
    else cur.reverse :: tokenizeAux rest []

/-- The ranker's `tokenize`: lower-case, split on non-alphanumeric runs,
drop empty tokens. -/
def tokenize (text : JStr) : List JStr :=
  tokenizeAux (text.map Char.toLower) []

/-- `scoreChunk`: the sum over the query tokens of that token's occurrence
count among the chunk's tokens (term-frequency overlap). -/
def scoreChunk (chunk : Chunk) (queryTokens : List JStr) : Nat :=
  let tokens := tokenize chunk.text
  if tokens = [] then 0
  else (queryTokens.map (fun t => tokens.count t)).sum

/-- Descending-score order used by the ranker's sort comparator
`(a, b) => b.score - a.score`. -/
def scoreGE (a b : Chunk × Nat) : Prop := b.2 ≤ a.2

instance : DecidableRel scoreGE := fun a b => Nat.decLe b.2 a.2

instance : IsTotal (Chunk × Nat) scoreGE := ⟨fun a b => Nat.le_total b.2 a.2⟩

instance : IsTrans (Chunk × Nat) scoreGE := ⟨fun _ _ _ h1 h2 => Nat.le_trans h2 h1⟩

/-- `rankChunks(chunks, query, topK)`: score every chunk, keep the strictly
positive scores, sort descending, truncate to `topK`, return the chunks. -/
def rankChunks (chunks : List Chunk) (query : JStr) (topK : Nat) : List Chunk :=
  let queryTokens := tokenize query
  ((((chunks.map (fun c => (c, scoreChunk c queryTokens))).filter
      (fun e => 0 < e.2)).insertionSort scoreGE).take topK).map (fun e => e.1)

/-! ### Concurrency pool (`src/lib/utils/concurrency.ts`) -/

/-- A pool result entry `{ item, result, index }`. -/
structure PoolResult (T R : Type) where
  item : T
  result : R
  index : Nat
deriving DecidableEq

/-- The entries the pool is guaranteed to have pushed into `results` by the
time all workers finish: one entry per submitted index `i`, carrying
`items[i]` and `processor(items[i], i)`.  `i` is the index of the first
item of `l` in the original list. -/
def canonicalFrom {T R : Type} (f : T → Nat → R) : Nat → List T → List (PoolResult T R)
  | _, [] => []
  | i, x :: xs => ⟨x, f x i, i⟩ :: canonicalFrom f (i + 1) xs

/-- Ascending-index order used by the pool's final
`results.sort((a, b) => a.index - b.index)`. -/
def idxLE {T R : Type} (a b : PoolResult T R) : Prop := a.index ≤ b.index

/-- Strict version of `idxLE`, for uniqueness-of-sorting arguments. -/
def idxLT {T R : Type} (a b : PoolResult T R) : Prop := a.index < b.index

instance {T R : Type} : DecidableRel (@idxLE T R) := fun a b => Nat.decLe a.index b.index

instance {T R : Type} : IsTotal (PoolResult T R) idxLE := ⟨fun a b => Nat.le_total a.index b.index⟩

instance {T R : Type} : IsTrans (PoolResult T R) idxLE := ⟨fun _ _ _ => Nat.le_trans⟩

instance {T R : Type} : IsTrans (PoolResult T R) idxLT := ⟨fun _ _ _ => Nat.lt_trans⟩

instance {T R : Type} : IsAntisymm (PoolResult T R) idxLT :=
  ⟨fun _ _ h1 h2 => absurd (Nat.lt_trans h1 h2) (Nat.lt_irrefl _)⟩

/-- `processWithPool(items, processor, { concurrency })` (worker variant and
`Promise.race` variant alike): the workers push one entry per item into a
shared `results` array in completion order, and the pool finally sorts that
array by original index.  Scheduling is abstracted by quantifying over the
completion order: `completed` is the `results` array as the workers left it,
and the pool's own contribution is the final sort.  The `concurrency` option
only influences which completion orders can occur. -/
def processWithPool {T R : Type} (_items : List T) (_processor : T → Nat → R)
    (_concurrency : Nat) (completed : List (PoolResult T R)) : List (PoolResult T R) :=
  completed.insertionSort idxLE

/-- Error-propagating model of the pool for a processor that can fail
(`Except`): one worker rejecting makes the whole `Promise.all` of workers
reject, so the pool call itself rejects with the first error it meets.
Results are listed here in submission order; this only over-determines which
of several failures wins, not whether the pool fails. -/
def processWithPoolE {T R ε : Type} : List T → (T → Nat → Except ε R) → Nat →
    Except ε (List (PoolResult T R))
  | [], _, _ => Except.ok []
  | x :: xs, proc, i =>
    match proc x i with
    | Except.error e => Except.error e
    | Except.ok r =>
      match processWithPoolE xs proc (i + 1) with
      | Except.error e => Except.error e
      | Except.ok rest => Except.ok (⟨x, r, i⟩ :: rest)

/-! ### Oracle client boundary and the rlm / rlm-graph processor closures
(streaming orchestrator route, `src/lib/llm/azure.ts`) -/

/-- `String.prototype.includes`: substring containment. -/
def jsIncludes (l s : List Char) : Bool :=
  if s.isPrefixOf l then true
  else
    match l with
    | [] => false
    | _ :: t => jsIncludes t s

/-- One chat message `{ role, content }`. -/
structure ChatMessage where
  role : JStr
  content : JStr

/-- The input of a `chatCompletion` oracle call. -/
structure ChatRequest where
  deployment : JStr
  messages : List ChatMessage
  temperature : ℚ

/-- The output of a successful `chatCompletion` oracle call. -/
structure ChatResult where
  content : JStr
  usage : Option Nat

/-- `SUB_PROMPT` from `src/lib/analysis/prompts.ts` (already trimmed). -/
def SUB_PROMPT : JStr :=
  ("You are a sub model analyzing a single snippet from a larger document.\n" ++
   "Only use the snippet. Do not speculate beyond it.\n" ++
   "Return JSON with keys: relevant (boolean), summary (string), citations (array of strings).\n" ++
   "If not relevant, set relevant=false, summary=\"\", citations=[].\n" ++
   "Always include the provided chunk ID in citations when relevant.\n" ++
   "Return JSON only.").data

/-- `GRAPH_SUB_PROMPT` from `src/lib/analysis/prompts.ts` (already trimmed). -/
def GRAPH_SUB_PROMPT : JStr :=
  ("You are a sub model analyzing a single snippet from a larger document.\n" ++
   "You must perform two tasks:\n\n" ++
   "1. FINDINGS: Analyze the snippet for relevance to the question.\n" ++
   "2. ENTITIES: Extract entities and relationships from the snippet.\n\n" ++
   "Only use the snippet. Do not speculate beyond it.\n\n" ++
   "Return JSON with this schema:\n\x7b\n" ++
   "  \"finding\": \x7b\n    \"relevant\": true/false,\n" ++
   "    \"summary\": \"<factual summary if relevant, empty string if not>\",\n" ++
   "    \"citations\": [\"<chunk_id>\"]\n  \x7d,\n" ++
   "  \"extraction\": \x7b\n    \"entities\": [\n" ++
   "      \x7b \"type\": \"<party|date|amount|clause|obligation|right|condition|document|section>\", \"name\": \"<name>\", \"properties\": \x7b\x7d, \"confidence\": 0.0-1.0 \x7d\n" ++
   "    ],\n    \"relationships\": [\n" ++
   "      \x7b \"type\": \"<has_obligation|has_right|references|depends_on|effective_on|expires_on|involves_amount|defined_in|related_to>\", \"sourceName\": \"<entity_name>\", \"targetName\": \"<entity_name>\", \"properties\": \x7b\x7d, \"confidence\": 0.0-1.0 \x7d\n" ++
   "    ]\n  \x7d\n\x7d\n\n" ++
   "Return JSON only.").data

/-- `getSubcallTemperature`: temperature 1 for deployments whose lower-cased
identifier contains `"nano"`, 0 otherwise. -/
def getSubcallTemperature (deployment : JStr) : ℚ :=
  if jsIncludes (deployment.map Char.toLower) "nano".data then 1 else 0

/-- The `chatCompletion` request the rlm-mode processor closure builds for
one chunk. -/
def subRequest (deployment question : JStr) (chunk : Chunk) : ChatRequest :=
  { deployment := deployment
    messages :=
      [⟨"system".data, SUB_PROMPT⟩,
       ⟨"user".data,
        "Chunk ID: ".data ++ chunk.id ++ "\nQuestion: ".data ++ question ++
          "\nSnippet:\n".data ++ chunk.text⟩]
    temperature := getSubcallTemperature deployment }

/-- The `chatCompletion` request the rlm-graph-mode processor closure builds
for one chunk. -/
def graphSubRequest (deployment question : JStr) (chunk : Chunk) : ChatRequest :=
  { deployment := deployment
    messages :=
      [⟨"system".data, GRAPH_SUB_PROMPT⟩,
       ⟨"user".data,
        "Chunk ID: ".data ++ chunk.id ++ "\nQuestion: ".data ++ question ++
          "\nSnippet:\n".data ++ chunk.text⟩]
    temperature := getSubcallTemperature deployment }

/-- The per-chunk processor closure passed to `processWithPool` in rlm mode:
`async (chunk) => { const subResult = await chatCompletion({...}); return
subResult; }`.  The oracle is a parameter; a thrown/rejected oracle call is
an `Except.error`. -/
def rlmProcessor (oracle : ChatRequest → Except JStr ChatResult)
    (deployment question : JStr) (chunk : Chunk) : Except JStr ChatResult := do
  let subResult ← oracle (subRequest deployment question chunk)
  pure subResult

/-- The per-chunk processor closure passed to `processWithPool` in rlm-graph
mode; identical to `rlmProcessor` except for the system prompt. -/
def rlmGraphProcessor (oracle : ChatRequest → Except JStr ChatResult)
    (deployment question : JStr) (chunk : Chunk) : Except JStr ChatResult := do
  let subResult ← oracle (graphSubRequest deployment question chunk)
  pure subResult

/-! ### Result parser (`parseSubFinding`, `src/lib/analysis/analyze.ts` and
the streaming route) -/

/-- JSON values as returned by `JSON.parse`. -/
inductive JsValue where
  | null
  | bool (b : Bool)
  | num (n : Int)
  | str (s : JStr)
  | arr (elems : List JsValue)
  | obj (fields : List (JStr × JsValue))

/-- Property lookup on a parsed JSON object's field list. -/
def lookupField : List (JStr × JsValue) → JStr → Option JsValue
  | [], _ => none
  | (k, v) :: rest, key => if k = key then some v else lookupField rest key

/-- JavaScript property access `value.key`: defined on objects, `undefined`
(`none`) on everything else (the parser only reads properties of the parsed
top-level value, which is an object whenever the input was brace-delimited,
but the model stays total). -/
def getField : JsValue → JStr → Option JsValue
  | .obj fields, key => lookupField fields key
  | _, _ => none

/-- JavaScript truthiness of a JSON value. -/
def jsTruthy : JsValue → Bool
  | .null => false
  | .bool b => b
  | .num n => n != 0
  | .str s => decide (s ≠ [])
  | .arr _ => true
  | .obj _ => true

/-- JavaScript `.length` of a JSON value: the element count for arrays, the
character count for strings, the `length` property for plain objects (only a
non-negative integer value counts; exotic coercions of non-numeric `length`
values inside `> 0` are treated as failing the check), `undefined` (`none`)
otherwise. -/
def jsLength : JsValue → Option Nat
  | .arr xs => some xs.length
  | .str s => some s.length
  | .obj fields =>
    match lookupField fields "length".data with
    | some (.num n) => if 0 ≤ n then some n.toNat else none
    | _ => none
  | _ => none

/-- `extractJson`: substring from the first `'{'` through the last `'}'`,
`null` (`none`) when no such pair exists or the last `'}'` is not strictly
after the first `'{'`. -/
def extractJson (text : JStr) : Option JStr :=
  match List.findIdx? (fun x => x = '\x7b') text,
      (List.findIdx? (fun x => x = '\x7d') text.reverse).map
        (fun j => text.length - 1 - j) with
  | some s, some e => if e ≤ s then none else some ((text.drop s).take (e + 1 - s))
  | _, _ => none

/-- A sub-call finding.  `summary` and `citations` are stored as raw JSON
values because the source assigns the fields of `JSON.parse`'s result through
an unchecked `Partial<SubFinding>` cast, so at runtime they can hold values
outside the declared `string` / `string[]` types. -/
structure SubFinding where
  relevant : Bool
  summary : JsValue
  citations : JsValue
  chunkId : JStr
  docId : JStr

/-- The parser's zero-value fallback finding for a chunk. -/
def fallbackFinding (chunk : Chunk) : SubFinding :=
  { relevant := false
    summary := .str []
    citations := .arr []
    chunkId := chunk.id
    docId := chunk.docId }

/-- The condition `parsed.citations && parsed.citations.length > 0` on a
present `citations` value. -/
def citationsUsable (cv : JsValue) : Bool :=
  jsTruthy cv &&
    match jsLength cv with
    | some n => decide (0 < n)
    | none => false

/-- `parseSubFinding(text, chunk)`, with `JSON.parse` as the parameter
`jsonParse` (`none` models a thrown `SyntaxError`).  Never throws: a missing
brace pair or a failed parse yields the zero-value fallback. -/
def parseSubFinding (jsonParse : JStr → Option JsValue) (text : JStr) (chunk : Chunk) :
    SubFinding :=
  match extractJson text with
  | none => fallbackFinding chunk
  | some json =>
    match jsonParse json with
    | none => fallbackFinding chunk
    | some parsed =>
      { relevant :=
          match getField parsed "relevant".data with
          | some rv => jsTruthy rv
          | none => false
        summary :=
          match getField parsed "summary".data with
          | some .null => .str []
          | some sv => sv
          | none => .str []
        citations :=
          match getField parsed "citations".data with
          | some cv => if citationsUsable cv then cv else .arr [.str chunk.id]
          | none => .arr [.str chunk.id]
        chunkId := chunk.id
        docId := chunk.docId }

/-! ### Graph builder (`src/lib/graph.ts`) -/

/-- The nine entity types (closed enumeration). -/
inductive EntityType where
  | party
  | date
  | amount
  | clause
  | obligation
  | right
  | condition
  | document
  | «section»
deriving DecidableEq

/-- The nine relationship types (closed enumeration). -/
inductive RelationType where
  | has_obligation
  | has_right
  | references
  | depends_on
  | effective_on
  | expires_on
  | involves_amount
  | defined_in
  | related_to
deriving DecidableEq

/-- `Record<string, unknown>` property bags attached to entities and
relationships; the values are raw JSON. -/
abbrev Props := List (JStr × JsValue)

/-- JavaScript object spread `{...a, ...b}`: `a`'s keys in order with `b`'s
values overriding on conflict, then `b`'s new keys in order. -/
def spreadMerge (a b : Props) : Props :=
  (a.map fun p =>
    match lookupField b p.1 with
    | some v => (p.1, v)
    | none => p) ++
    b.filter fun p => (lookupField a p.1).isNone

/-- One extracted entity instance. -/
structure Entity where
  type : EntityType
  name : JStr
  properties : Option Props
  confidence : ℚ

/-- One extracted relationship instance. -/
structure Relationship where
  type : RelationType
  sourceName : JStr
  targetName : JStr
  properties : Option Props
  confidence : ℚ

/-- Per-chunk extraction result `{ entities, relationships }`. -/
structure EntityExtraction where
  entities : List Entity
  relationships : List Relationship

/-- A chunk extraction tagged with its source chunk ID. -/
structure ChunkExtraction where
  chunkId : JStr
  extraction : EntityExtraction

/-- A raw entity instance tagged with its source chunks, as collected by
`mergeEntities` before merging. -/
structure RawEntity where
  type : EntityType
  name : JStr
  properties : Props
  confidence : ℚ
  sourceChunks : List JStr

/-- A merged graph node. -/
structure GraphNode where
  id : JStr
  type : EntityType
  name : JStr
  properties : Props
  sourceChunks : List JStr
  confidence : ℚ

/-- A graph edge between merged nodes. -/
structure GraphEdge where
  id : JStr
  type : RelationType
  source : JStr
  target : JStr
  properties : Props
  sourceChunk : JStr
  confidence : ℚ

/-- The knowledge graph with its metadata. -/
structure KnowledgeGraph where
  nodes : List GraphNode
  edges : List GraphEdge
  documentCount : Nat
  chunkCount : Nat
  extractionModel : JStr

/-- Collapse every maximal whitespace run to a single space, as
`.replace(/\s+/g, " ")` does.  The flag records whether the previous
character was part of a whitespace run already replaced. -/
def collapseWsAux : List Char → Bool → List Char
  | [], _ => []
  | c :: rest, prevWs =>
    if isWs c then
      if prevWs then collapseWsAux rest true else ' ' :: collapseWsAux rest true
    else c :: collapseWsAux rest false

/-- `normalizeEntityName`: `name.toLowerCase().trim().replace(/\s+/g, " ")`. -/
def normalizeEntityName (name : JStr) : JStr :=
  collapseWsAux (trimStr (name.map Char.toLower)) false

/-- `.split(" ")` on a single space character; parts may be empty and the
result is never the empty list (`"".split(" ") === [""]`). -/
def splitOnSpace : List Char → List JStr
  | [] => [[]]
  | c :: rest =>
    if c = ' ' then [] :: splitOnSpace rest
    else
      match splitOnSpace rest with
      | [] => [[c]]
      | w :: ws => (c :: w) :: ws

/-- `calculateSimilarity`: 1 for equal normalized names, 0.8 when one
normalized name contains the other, otherwise the Jaccard similarity of the
space-separated word sets.  The word list of any string is non-empty, so the
union is never empty; Lean's `x / 0 = 0` convention on the unreachable empty
case replaces JavaScript's `NaN`. -/
def calculateSimilarity (a b : JStr) : ℚ :=
  let aNorm := normalizeEntityName a
  let bNorm := normalizeEntityName b
  if aNorm = bNorm then 1
  else if jsIncludes aNorm bNorm || jsIncludes bNorm aNorm then 4 / 5
  else
    let aWords := dedupFirst (splitOnSpace aNorm)
    let bWords := dedupFirst (splitOnSpace bNorm)
    let inter := aWords.filter fun w => decide (w ∈ bWords)
    let union := dedupFirst (aWords ++ bWords)
    (inter.length : ℚ) / (union.length : ℚ)

/-- The default `similarityThreshold` of `mergeEntities` (0.7). -/
def similarityThresholdDefault : ℚ := 7 / 10

/-- Collect every raw entity instance across all chunk extractions, each
tagged with its single source chunk ID. -/
def collectRaw (extractions : List ChunkExtraction) : List RawEntity :=
  extractions.flatMap fun ce =>
    ce.extraction.entities.map fun e =>
      { type := e.type
        name := e.name
        properties := e.properties.getD []
        confidence := e.confidence
        sourceChunks := [ce.chunkId] }

/-- Insert one raw entity into the `Map<EntityType, RawEntity[]>` grouping:
append to the existing bucket, or append a new bucket (JavaScript `Map`
preserves first-insertion key order). -/
def addGroup : List (EntityType × List RawEntity) → RawEntity →
    List (EntityType × List RawEntity)
  | [], e => [(e.type, [e])]
  | (t, es) :: rest, e =>
    if e.type = t then (t, es ++ [e]) :: rest else (t, es) :: addGroup rest e

/-- Group the raw entities by type, in first-occurrence key order. -/
def groupByType (l : List RawEntity) : List (EntityType × List RawEntity) :=
  l.foldl addGroup []

/-- Merge one raw entity into the already-merged list: linearly scan for the
first existing entry with similarity at or above the threshold; on a match
union the source-chunk sets, take the max confidence and spread-merge the
properties, otherwise append a new entry. -/
def mergeStep (threshold : ℚ) : List RawEntity → RawEntity → List RawEntity
  | [], e => [e]
  | ex :: rest, e =>
    if threshold ≤ calculateSimilarity e.name ex.name then
      { ex with
        sourceChunks := dedupFirst (ex.sourceChunks ++ e.sourceChunks)
        confidence := max ex.confidence e.confidence
        properties := spreadMerge ex.properties e.properties } :: rest
    else ex :: mergeStep threshold rest e

/-- Assign the sequential synthetic node IDs `n1, n2, …`. -/
def assignIds : Nat → List RawEntity → List GraphNode
  | _, [] => []
  | i, e :: rest =>
    { id := 'n' :: natStr (i + 1)
      type := e.type
      name := e.name
      properties := e.properties
      sourceChunks := e.sourceChunks
      confidence := e.confidence } :: assignIds (i + 1) rest

/-- `mergeEntities(extractions, similarityThreshold)`: collect, group by
type, merge within each type partition in discovery order, then assign IDs. -/
def mergeEntities (extractions : List ChunkExtraction) (threshold : ℚ) : List GraphNode :=
  let rawEntities := collectRaw extractions
  let groups := groupByType rawEntities
  let mergedEntities := groups.flatMap fun g => g.2.foldl (mergeStep threshold) []
  assignIds 0 mergedEntities

/-- Insert into the `nodesByName` map keyed by normalized name: overwrite the
value in place when the key exists, else append (JavaScript `Map.set`). -/
def setAssoc : List (JStr × GraphNode) → JStr → GraphNode → List (JStr × GraphNode)
  | [], k, v => [(k, v)]
  | (k0, v0) :: rest, k, v =>
    if k0 = k then (k, v) :: rest else (k0, v0) :: setAssoc rest k v

/-- Exact lookup in `nodesByName`. -/
def lookupAssoc : List (JStr × GraphNode) → JStr → Option GraphNode
  | [], _ => none
  | (k0, v0) :: rest, k => if k0 = k then some v0 else lookupAssoc rest k

/-- `findNodeByName`: exact normalized lookup first, then a fuzzy scan over
the map in insertion order taking the first entry with similarity ≥ 0.7. -/
def findNodeByName (nodesByName : List (JStr × GraphNode)) (name : JStr) :
    Option GraphNode :=
  let normalized := normalizeEntityName name
  match lookupAssoc nodesByName normalized with
  | some node => some node
  | none =>
    (nodesByName.find? fun p =>
      decide (7 / 10 ≤ calculateSimilarity normalized p.1)).map fun p => p.2

/-- Process the relationships of one chunk extraction: resolve both endpoint
names, drop the relationship if either fails to resolve or an edge with the
identical `(type, source, target)` triple already exists, otherwise append a
new edge with the next sequential ID.  The state is the pair
`(edges, edgeIndex)`. -/
def addEdges (nodesByName : List (JStr × GraphNode)) (st : List GraphEdge × Nat)
    (ce : ChunkExtraction) : List GraphEdge × Nat :=
  ce.extraction.relationships.foldl
    (fun st rel =>
      match findNodeByName nodesByName rel.sourceName,
          findNodeByName nodesByName rel.targetName with
      | some sourceNode, some targetNode =>
        if st.1.any fun e =>
            e.type = rel.type ∧ e.source = sourceNode.id ∧ e.target = targetNode.id then
          st
        else
          (st.1 ++
            [{ id := 'e' :: natStr (st.2 + 1)
               type := rel.type
               source := sourceNode.id
               target := targetNode.id
               properties := rel.properties.getD []
               sourceChunk := ce.chunkId
               confidence := rel.confidence }],
            st.2 + 1)
      | _, _ => st)
    st

/-- The `nodesByName` map of `buildGraph`: normalized node name to node,
built with `Map.set` over the merged nodes in order. -/
def nodesByNameOf (nodes : List GraphNode) : List (JStr × GraphNode) :=
  nodes.foldl (fun m n => setAssoc m (normalizeEntityName n.name) n) []

/-- `buildGraph(extractions, documentCount, extractionModel)`. -/
def buildGraph (extractions : List ChunkExtraction) (documentCount : Nat)
    (extractionModel : JStr) : KnowledgeGraph :=
  let nodes := mergeEntities extractions similarityThresholdDefault
  let nodesByName := nodesByNameOf nodes
  let edges := (extractions.foldl (addEdges nodesByName) ([], 0)).1
  { nodes := nodes
    edges := edges
    documentCount := documentCount
    chunkCount := extractions.length
    extractionModel := extractionModel }

/-! ### Claim C3: similarity on names whose normalized forms are empty -/

theorem splitOnSpace_ne_nil : ∀ l : List Char, splitOnSpace l ≠ []
  | [] => by simp [splitOnSpace]
  | c :: rest => by
    by_cases hc : c = ' '
    · simp [splitOnSpace, hc]
    · simp only [splitOnSpace, if_neg hc]
      match splitOnSpace rest with
      | [] => simp
      | w :: ws => simp

/-- C3 counterexample: the concrete names `" "` and `""` both normalize to the
empty string, yet `calculateSimilarity` returns 1 (via the exact-equality
branch), not 0 as the claim states. -/
theorem c3_counterexample :
    normalizeEntityName " ".data = [] ∧ normalizeEntityName "".data = [] ∧
    calculateSimilarity " ".data "".data = 1 ∧ (1 : ℚ) ≠ 0 :=
  ⟨rfl, rfl, rfl, one_ne_zero⟩

/-- C3 (amended): whenever the two names' normalized forms are both empty, the
normalized strings are equal, so `calculateSimilarity` returns 1 through its
exact-equality branch; the Jaccard step is never reached with an empty union
because `.split(" ")` always yields at least one (possibly empty) token, so
the word set of any string is non-empty. -/
theorem c3_empty_normalized_names_give_similarity_one :
    (∀ a b : JStr, normalizeEntityName a = [] → normalizeEntityName b = [] →
      calculateSimilarity a b = 1) ∧
    ∀ a : JStr, dedupFirst (splitOnSpace a) ≠ [] := by
  constructor
  · intro a b h1 h2
    unfold calculateSimilarity
    rw [h1, h2]
    simp
  · intro a
    match h : splitOnSpace a with
    | [] => exact absurd h (splitOnSpace_ne_nil a)
    | w :: ws => simp [dedupFirst, dedupFirstAux]

theorem c3_empty_normalized_names_give_similarity_one_witness :
    calculateSimilarity " ".data "".data = 1 :=
  c3_empty_normalized_names_give_similarity_one.1 " ".data "".data rfl rfl

/-! ### Claim C1: error handling of the rlm / rlm-graph processor closures -/

/-- An oracle whose call always rejects (e.g. a transport failure). -/
def failingOracle : ChatRequest → Except JStr ChatResult :=
  fun _ => Except.error "boom".data

/-- A concrete chunk used to exercise the processor closures. -/
def chunk0 : Chunk :=
  { id := "doc-1-chunk-1".data
    docId := "doc-1".data
    index := 0
    text := "hello".data
    start := 0
    endOff := 5 }

/-- C1 counterexample: with an oracle whose call rejects, the rlm processor
closure returns that very error — it does not catch it and does not degrade
it to the parser's zero-value fallback finding — and the pool invocation
itself therefore rejects: the exception escapes the pool slot. -/
theorem c1_counterexample :
    rlmProcessor failingOracle "gpt-4".data "q".data chunk0 =
      Except.error "boom".data ∧
    processWithPoolE [chunk0]
        (fun c _ => rlmProcessor failingOracle "gpt-4".data "q".data c) 0 =
      Except.error "boom".data :=
  ⟨rfl, rfl⟩

theorem poolE_error_of_mem {T R ε : Type} :
    ∀ (chunks : List T) (proc : T → Nat → Except ε R) (i : Nat) (x : T) (e : ε),
      x ∈ chunks → (∀ j, proc x j = Except.error e) →
      ∃ e2, processWithPoolE chunks proc i = Except.error e2
  | [], _, _, _, _, hmem, _ => absurd hmem (List.not_mem_nil _)
  | c :: cs, proc, i, x, e, hmem, hx => by
    match hp : proc c i with
    | Except.error e0 => exact ⟨e0, by simp [processWithPoolE, hp]⟩
    | Except.ok r =>
      rcases List.mem_cons.1 hmem with hxc | hxs
      · subst hxc
        rw [hx i] at hp
        exact absurd hp (by simp)
      · obtain ⟨e2, h2⟩ := poolE_error_of_mem cs proc (i + 1) x e hxs hx
        exact ⟨e2, by simp [processWithPoolE, hp, h2]⟩

/-- C1 (amended): the rlm and rlm-graph processor closures do **not** catch
oracle-call errors.  Each closure is exactly the oracle call on the request
it builds, so a rejected `chatCompletion` propagates unchanged out of the
processor; consequently the pool invocation containing that chunk rejects and
the exception reaches the orchestrator's top-level error boundary.  The
Result Parser's zero-value fallback only absorbs malformed content of
successful oracle responses and is applied after the pool returns. -/
theorem c1_processor_propagates_oracle_errors :
    ∀ (oracle : ChatRequest → Except JStr ChatResult) (deployment question : JStr)
      (chunk : Chunk) (chunks : List Chunk) (e : JStr),
      rlmProcessor oracle deployment question chunk =
        oracle (subRequest deployment question chunk) ∧
      rlmGraphProcessor oracle deployment question chunk =
        oracle (graphSubRequest deployment question chunk) ∧
      (chunk ∈ chunks → oracle (subRequest deployment question chunk) = Except.error e →
        ∃ e2, processWithPoolE chunks
          (fun c _ => rlmProcessor oracle deployment question c) 0 = Except.error e2) := by
  intro oracle deployment question chunk chunks e
  refine ⟨?_, ?_, ?_⟩
  · unfold rlmProcessor
    cases oracle (subRequest deployment question chunk) <;> rfl
  · unfold rlmGraphProcessor
    cases oracle (graphSubRequest deployment question chunk) <;> rfl
  · intro hmem herr
    refine poolE_error_of_mem chunks _ 0 chunk e hmem ?_
    intro _
    unfold rlmProcessor
    rw [herr]
    rfl

theorem c1_processor_propagates_oracle_errors_witness :
    rlmProcessor failingOracle "gpt-4".data "q".data chunk0 =
      failingOracle (subRequest "gpt-4".data "q".data chunk0) ∧
    ∃ e2, processWithPoolE [chunk0]
        (fun c _ => rlmProcessor failingOracle "gpt-4".data "q".data c) 0 =
      Except.error e2 :=
  ⟨(c1_processor_propagates_oracle_errors failingOracle "gpt-4".data "q".data chunk0
      [chunk0] "boom".data).1,
   (c1_processor_propagates_oracle_errors failingOracle "gpt-4".data "q".data chunk0
      [chunk0] "boom".data).2.2 (List.mem_singleton_self _) rfl⟩

/-! ### Claim C8: ranker topK bound, positive scores, empty query -/

theorem scoreChunk_nil_tokens (c : Chunk) : scoreChunk c [] = 0 := by
  by_cases h : tokenize c.text = [] <;> simp [scoreChunk, h]

/-- C8: `rankChunks` returns at most `topK` chunks; every returned chunk has
a strictly positive term-frequency overlap score with the query; and a query
with no tokens yields the empty result. -/
theorem c8_ranker_topk_bound :
    ∀ (chunks : List Chunk) (query : JStr) (topK : Nat),
      (rankChunks chunks query topK).length ≤ topK ∧
      (∀ c ∈ rankChunks chunks query topK, 0 < scoreChunk c (tokenize query)) ∧
      (tokenize query = [] → rankChunks chunks query topK = []) := by
  intro chunks query topK
  refine ⟨?_, ?_, ?_⟩
  · simp only [rankChunks, List.length_map, List.length_take]
    exact min_le_left _ _
  · intro c hc
    simp only [rankChunks] at hc
    obtain ⟨e, he_take, hce⟩ := List.mem_map.1 hc
    have he_sort := List.take_subset _ _ he_take
    have he_filter := (List.mem_insertionSort scoreGE).1 he_sort
    have hmem := (List.mem_filter.1 he_filter).1
    have hpos := of_decide_eq_true (List.mem_filter.1 he_filter).2
    obtain ⟨c0, _, hc0⟩ := List.mem_map.1 hmem
    rw [← hc0] at hpos hce
    simpa [← hce] using hpos
  · intro hq
    simp only [rankChunks, hq]
    have hnil : (chunks.map fun c => (c, scoreChunk c ([] : List JStr))).filter
        (fun e => decide (0 < e.2)) = [] := by
      rw [List.filter_eq_nil_iff]
      intro e he
      obtain ⟨c0, _, hc0⟩ := List.mem_map.1 he
      rw [← hc0]
      simp [scoreChunk_nil_tokens]
    rw [hnil]
    simp [List.insertionSort]

/-- A concrete chunk whose text mentions "payment". -/
def chunkPay : Chunk :=
  { id := "doc-1-chunk-1".data
    docId := "doc-1".data
    index := 0
    text := "payment due".data
    start := 0
    endOff := 13 }

theorem c8_ranker_topk_bound_witness :
    0 < scoreChunk chunkPay (tokenize "payment".data) ∧
    rankChunks [chunkPay] "?!".data 5 = [] :=
  ⟨(c8_ranker_topk_bound [chunkPay] "payment".data 5).2.1 chunkPay (by decide),
   (c8_ranker_topk_bound [chunkPay] "?!".data 5).2.2 (by decide)⟩

/-! ### Claim C4: pool order preservation -/

theorem canonicalFrom_index_ge {T R : Type} (f : T → Nat → R) :
    ∀ (xs : List T) (i : Nat) (r : PoolResult T R),
      r ∈ canonicalFrom f i xs → i ≤ r.index
  | [], _, _, hr => absurd hr (List.not_mem_nil _)
  | x :: xs, i, r, hr => by
    rcases List.mem_cons.1 hr with h | h
    · rw [h]
    · exact Nat.le_of_succ_le (canonicalFrom_index_ge f xs (i + 1) r h)

theorem canonicalFrom_sorted_lt {T R : Type} (f : T → Nat → R) :
    ∀ (xs : List T) (i : Nat), List.Sorted idxLT (canonicalFrom f i xs)
  | [], _ => List.Pairwise.nil
  | x :: xs, i => by
    refine List.Pairwise.cons ?_ (canonicalFrom_sorted_lt f xs (i + 1))
    intro r hr
    exact Nat.lt_of_succ_le (canonicalFrom_index_ge f xs (i + 1) r hr)

theorem canonicalFrom_map_index {T R : Type} (f : T → Nat → R) :
    ∀ (xs : List T) (i : Nat),
      (canonicalFrom f i xs).map (fun r => r.index) = List.range' i xs.length
  | [], _ => rfl
  | x :: xs, i => by
    simp only [canonicalFrom, List.map_cons, List.length_cons, List.range'_succ]
    rw [canonicalFrom_map_index f xs (i + 1)]

theorem canonicalFrom_getElem {T R : Type} (f : T → Nat → R) :
    ∀ (xs : List T) (i k : Nat),
      (canonicalFrom f i xs)[k]? =
        (xs[k]?).map fun x => (⟨x, f x (i + k), i + k⟩ : PoolResult T R)
  | [], _, _ => by simp [canonicalFrom]
  | x :: xs, i, 0 => by simp [canonicalFrom]
  | x :: xs, i, k + 1 => by
    simp only [canonicalFrom, List.getElem?_cons_succ]
    rw [canonicalFrom_getElem f xs (i + 1) k]
    have : i + 1 + k = i + (k + 1) := by omega
    rw [this]

theorem sorted_le_nodup_lt {T R : Type} {l : List (PoolResult T R)}
    (hs : List.Sorted idxLE l) (hn : (l.map fun r => r.index).Nodup) :
    List.Sorted idxLT l := by
  have hpw : l.Pairwise fun a b => a.index ≠ b.index := List.pairwise_map.1 hn
  exact (hs.and hpw).imp fun h => Nat.lt_of_le_of_ne h.1 h.2

/-- C4: for any concurrency between 1 and the item count and for any
completion order the workers may produce (any permutation of the canonical
per-index results), `processWithPool` returns the canonical results in
original submission order: the k-th entry carries index `k` and item
`items[k]`. -/
theorem c4_pool_order_preservation {T R : Type} :
    ∀ (items : List T) (processor : T → Nat → R) (concurrency : Nat)
      (completed : List (PoolResult T R)),
      1 ≤ concurrency → concurrency ≤ items.length →
      completed.Perm (canonicalFrom processor 0 items) →
      processWithPool items processor concurrency completed =
        canonicalFrom processor 0 items ∧
      ∀ k, k < items.length →
        (processWithPool items processor concurrency completed)[k]? =
          (items[k]?).map fun x => ⟨x, processor x k, k⟩ := by
  intro items processor concurrency completed _ _ hperm
  have hsortperm : (completed.insertionSort idxLE).Perm (canonicalFrom processor 0 items) :=
    (List.perm_insertionSort idxLE completed).trans hperm
  have hsorted : List.Sorted idxLE (completed.insertionSort idxLE) :=
    List.sorted_insertionSort idxLE completed
  have hnodup : ((completed.insertionSort idxLE).map fun r => r.index).Nodup := by
    have hpm := hsortperm.map fun r => r.index
    rw [hpm.nodup_iff, canonicalFrom_map_index]
    exact List.nodup_range' _ _
  have heq : completed.insertionSort idxLE = canonicalFrom processor 0 items :=
    List.eq_of_perm_of_sorted hsortperm (sorted_le_nodup_lt hsorted hnodup)
      (canonicalFrom_sorted_lt processor items 0)
  refine ⟨heq, ?_⟩
  intro k _
  show (completed.insertionSort idxLE)[k]? = _
  rw [heq, canonicalFrom_getElem]
  simp

/-- A concrete completion order: the three items finish in reverse order. -/
def completedW : List (PoolResult Nat Nat) := [⟨7, 72, 2⟩, ⟨6, 61, 1⟩, ⟨5, 50, 0⟩]

theorem c4_pool_order_preservation_witness :
    processWithPool [5, 6, 7] (fun x i => x * 10 + i) 2 completedW =
      canonicalFrom (fun x i => x * 10 + i) 0 [5, 6, 7] ∧
    (processWithPool [5, 6, 7] (fun x i => x * 10 + i) 2 completedW)[1]? =
      some ⟨6, 61, 1⟩ := by
  have h := c4_pool_order_preservation [5, 6, 7] (fun x i => x * 10 + i) 2 completedW
    (by decide) (by decide) (by decide)
  refine ⟨h.1, ?_⟩
  rw [h.1]
  decide

/-! ### Claim C5: `parseSubFinding` fallback and citations defaulting -/

/-- C5 (amended): `parseSubFinding` is a total function (never throws).  When
no brace pair exists or the JSON parse fails it returns exactly the
zero-value fallback.  When parsing succeeds, `chunkId`/`docId` are taken from
the chunk; `citations` is the parsed citations **array** whenever such an
array is present and non-empty, and `[chunk.id]` whenever the citations field
is missing, null, or an empty array.  (A present citations value that is not
an array is passed through unchecked when it is truthy with a positive
`length` — see the counterexample — which is what forces the amendment.) -/
theorem c5_parse_sub_finding_fallback :
    ∀ (jsonParse : JStr → Option JsValue) (text : JStr) (chunk : Chunk),
      (extractJson text = none →
        parseSubFinding jsonParse text chunk = fallbackFinding chunk) ∧
      (∀ json, extractJson text = some json → jsonParse json = none →
        parseSubFinding jsonParse text chunk = fallbackFinding chunk) ∧
      (∀ json parsed, extractJson text = some json → jsonParse json = some parsed →
        (parseSubFinding jsonParse text chunk).chunkId = chunk.id ∧
        (parseSubFinding jsonParse text chunk).docId = chunk.docId ∧
        (∀ l, getField parsed "citations".data = some (JsValue.arr l) → l ≠ [] →
          (parseSubFinding jsonParse text chunk).citations = JsValue.arr l) ∧
        ((getField parsed "citations".data = none ∨
            getField parsed "citations".data = some JsValue.null ∨
            getField parsed "citations".data = some (JsValue.arr [])) →
          (parseSubFinding jsonParse text chunk).citations =
            JsValue.arr [JsValue.str chunk.id])) := by
  intro jsonParse text chunk
  refine ⟨?_, ?_, ?_⟩
  · intro h
    simp [parseSubFinding, h]
  · intro json h1 h2
    simp [parseSubFinding, h1, h2]
  · intro json parsed h1 h2
    refine ⟨by simp [parseSubFinding, h1, h2], by simp [parseSubFinding, h1, h2], ?_, ?_⟩
    · intro l hcit hne
      have husable : citationsUsable (JsValue.arr l) = true := by
        simp [citationsUsable, jsTruthy, jsLength, List.length_pos, hne]
      simp [parseSubFinding, h1, h2, hcit, husable]
    · intro hcases
      rcases hcases with h | h | h <;>
        simp [parseSubFinding, h1, h2, h, citationsUsable, jsTruthy, jsLength]

/-- The raw oracle response used in the C5 counterexample, a JSON object
whose `citations` field is a non-empty string rather than an array. -/
def cexText : JStr := "\x7b\"citations\":\"x\"\x7d".data

/-- A concrete stand-in for `JSON.parse` on the single input the C5
counterexample needs. -/
def jpCex : JStr → Option JsValue := fun s =>
  if s = cexText then some (JsValue.obj [("citations".data, JsValue.str "x".data)])
  else none

/-- C5 counterexample: on the response `{"citations":"x"}` parsing succeeds
and no citations array is present, so the claim requires `citations =
[chunk.id]`; the code instead passes the string through (its truthy value has
`length > 0`), so the result is neither the fallback's `[]` nor
`[chunk.id]`. -/
theorem c5_counterexample :
    (parseSubFinding jpCex cexText chunk0).citations = JsValue.str "x".data ∧
    (∀ l : List JsValue, JsValue.str "x".data ≠ JsValue.arr l) ∧
    JsValue.str "x".data ≠ JsValue.arr [JsValue.str chunk0.id] :=
  ⟨rfl, fun _ h => JsValue.noConfusion h, fun h => JsValue.noConfusion h⟩

theorem c5_parse_sub_finding_fallback_witness :
    parseSubFinding jpCex "no json here".data chunk0 = fallbackFinding chunk0 ∧
    (parseSubFinding jpCex cexText chunk0).chunkId = chunk0.id :=
  ⟨(c5_parse_sub_finding_fallback jpCex "no json here".data chunk0).1 rfl,
   ((c5_parse_sub_finding_fallback jpCex cexText chunk0).2.2 cexText
      (JsValue.obj [("citations".data, JsValue.str "x".data)]) rfl rfl).1⟩

/-! ### Claim C9: offset contiguity of a document's chunks -/

/-- Invariant of the chunk-building state: the chunks built so far are
contiguous, and `startOffset` equals the last chunk's end offset. -/
def offInv (st : ChunkSt) : Prop :=
  List.Chain' (fun a b => b.start = a.endOff) st.chunks ∧
  ∀ c, st.chunks.getLast? = some c → st.startOffset = c.endOff

theorem offInv_flush (docIdx : Nat) (dId : JStr) (e : Nat) (st : ChunkSt)
    (h : offInv st) : offInv (flushSt docIdx dId e st) := by
  obtain ⟨h1, h2⟩ := h
  unfold flushSt
  by_cases hb : trimStr st.buffer = []
  · rw [if_pos hb]
    exact ⟨h1, h2⟩
  · rw [if_neg hb]
    constructor
    · rw [List.chain'_append]
      refine ⟨h1, List.chain'_singleton _, ?_⟩
      intro x hx y hy
      simp only [List.head?_cons, Option.mem_def, Option.some.injEq] at hy
      rw [← hy]
      exact h2 x hx
    · intro c hc
      rw [List.getLast?_concat] at hc
      rw [← Option.some.inj hc]

theorem offInv_stepAux (docIdx : Nat) (dId : JStr) (cs : Nat) (p : JStr) :
    ∀ st1 : ChunkSt, offInv st1 →
      offInv (if cs ≤ (if st1.buffer = [] then p else st1.buffer ++ nlnl ++ p).length then
          flushSt docIdx dId (st1.cursor + p.length + 2)
            { st1 with
              buffer := if st1.buffer = [] then p else st1.buffer ++ nlnl ++ p
              cursor := st1.cursor + p.length + 2 }
        else
          { st1 with
            buffer := if st1.buffer = [] then p else st1.buffer ++ nlnl ++ p
            cursor := st1.cursor + p.length + 2 }) := by
  intro st1 h1
  split <;> split <;> first
    | exact offInv_flush _ _ _ _ h1
    | exact h1

theorem offInv_step (docIdx : Nat) (dId : JStr) (cs : Nat) (st : ChunkSt) (p : JStr)
    (h : offInv st) : offInv (stepPara docIdx dId cs st p) := by
  unfold stepPara
  dsimp only
  apply offInv_stepAux
  split <;> split <;> first
    | exact offInv_flush _ _ _ _ h
    | exact h

theorem offInv_foldl (docIdx : Nat) (dId : JStr) (cs : Nat) :
    ∀ (ps : List JStr) (st : ChunkSt), offInv st →
      offInv (ps.foldl (stepPara docIdx dId cs) st)
  | [], _, h => h
  | p :: ps, st, h =>
    offInv_foldl docIdx dId cs ps _ (offInv_step docIdx dId cs st p h)

/-- C9: for every document and chunkSize, consecutive chunks produced by
`buildChunksDoc` are contiguous: each chunk's `start` equals the previous
chunk's `end` in the paragraph-joined coordinate space; and `buildChunks`
concatenates exactly the per-document chunk lists. -/
theorem c9_offset_contiguity :
    (∀ (docIdx : Nat) (doc : DocumentInput) (chunkSize : Nat),
      List.Chain' (fun a b => b.start = a.endOff) (buildChunksDoc docIdx doc chunkSize)) ∧
    ∀ (documents : List DocumentInput) (chunkSize : Option Nat),
      buildChunks documents chunkSize =
        buildChunksFrom (chunkSize.getD DEFAULT_CHUNK_SIZE) 0 documents := by
  constructor
  · intro docIdx doc cs
    have h0 : offInv ⟨[], [], 0, 0, 0⟩ := ⟨List.chain'_nil, fun c hc => by simp at hc⟩
    have hf := offInv_foldl docIdx doc.id cs (splitParagraphs doc.text)
      ⟨[], [], 0, 0, 0⟩ h0
    unfold buildChunksDoc
    exact (offInv_flush docIdx doc.id _ _ hf).1
  · intro documents chunkSize
    rfl

/-! ### Claim C2: chunk coverage (no paragraph content dropped or duplicated) -/

/-- A string that trimming does not change and that is non-empty: non-empty
with non-whitespace first and last characters. -/
def TrimmedStr (l : JStr) : Prop :=
  l ≠ [] ∧ (∀ c, l.head? = some c → isWs c = false) ∧
    ∀ c, l.getLast? = some c → isWs c = false

theorem dropWhile_head_false (p : Char → Bool) :
    ∀ (l : List Char) (c : Char) (rest : List Char),
      l.dropWhile p = c :: rest → p c = false
  | [], _, _, h => by simp at h
  | a :: t, c, rest, h => by
    rw [List.dropWhile_cons] at h
    by_cases hp : p a = true
    · rw [if_pos hp] at h
      exact dropWhile_head_false p t c rest h
    · rw [if_neg hp] at h
      rw [← (List.cons.inj h).1]
      exact Bool.not_eq_true _ ▸ hp

theorem dropWhile_eq_self_of_head (p : Char → Bool) (l : List Char)
    (h : ∀ c, l.head? = some c → p c = false) : l.dropWhile p = l := by
  match l with
  | [] => rfl
  | c :: t =>
    rw [List.dropWhile_cons, if_neg]
    rw [h c rfl]
    simp

theorem trimStr_eq_self {l : JStr} (h : TrimmedStr l) : trimStr l = l := by
  obtain ⟨hne, hh, hl⟩ := h
  unfold trimStr
  rw [dropWhile_eq_self_of_head isWs l hh]
  rw [dropWhile_eq_self_of_head isWs l.reverse
    (fun c hc => hl c (by rwa [List.head?_reverse] at hc))]
  exact List.reverse_reverse l

theorem suffix_getLast? {α : Type} {s t : List α} (h : s <:+ t) (hne : s ≠ []) :
    s.getLast? = t.getLast? := by
  obtain ⟨pre, rfl⟩ := h
  rw [List.getLast?_append]
  match s, hne with
  | c :: rest, _ =>
    have : (c :: rest).getLast? = some ((c :: rest).getLast (by simp)) :=
      List.getLast?_eq_getLast _ _
    rw [this]
    rfl

theorem trimmed_of_trimStr {l : JStr} (h : trimStr l ≠ []) : TrimmedStr (trimStr l) := by
  refine ⟨h, ?_, ?_⟩
  · intro c hc
    -- head? (trimStr l) = getLast? (dropWhile isWs (reverse (dropWhile isWs l)))
    rw [trimStr, List.head?_reverse] at hc
    have hsuf := List.dropWhile_suffix (l := (l.dropWhile isWs).reverse) isWs
    have hmne : (l.dropWhile isWs).reverse.dropWhile isWs ≠ [] := by
      intro hemp
      apply h
      rw [trimStr, hemp]
      rfl
    rw [suffix_getLast? hsuf hmne, List.getLast?_reverse] at hc
    cases hk : l.dropWhile isWs with
    | nil =>
      rw [hk] at hc
      simp at hc
    | cons c0 rest =>
      rw [hk, List.head?_cons] at hc
      rw [← Option.some.inj hc]
      exact dropWhile_head_false isWs l c0 rest hk
  · intro c hc
    rw [trimStr, List.getLast?_reverse] at hc
    match hm : (l.dropWhile isWs).reverse.dropWhile isWs, hc with
    | c0 :: rest, hc =>
      have := dropWhile_head_false isWs (l.dropWhile isWs).reverse c0 rest hm
      rw [List.head?_cons] at hc
      exact Option.some.inj hc ▸ this

theorem trimmed_append {a b : JStr} (ha : TrimmedStr a) (hb : TrimmedStr b) :
    TrimmedStr (a ++ nlnl ++ b) := by
  obtain ⟨hane, hah, _⟩ := ha
  obtain ⟨hbne, _, hbl⟩ := hb
  refine ⟨by simp [hbne], ?_, ?_⟩
  · intro c hc
    match a, hane with
    | a0 :: arest, _ =>
      apply hah
      simp only [List.cons_append, List.head?_cons] at hc ⊢
      exact hc
  · intro c hc
    rw [List.append_assoc, List.getLast?_append] at hc
    apply hbl
    rw [List.getLast?_append] at hc
    match b, hbne with
    | b0 :: brest, _ =>
      have hsome : (b0 :: brest).getLast? = some ((b0 :: brest).getLast (by simp)) :=
        List.getLast?_eq_getLast _ _
      rw [hsome] at hc ⊢
      simpa using hc

theorem splitParagraphs_trimmed (t : JStr) : ∀ p ∈ splitParagraphs t, TrimmedStr p := by
  intro p hp
  unfold splitParagraphs at hp
  have := List.mem_filter.1 hp
  obtain ⟨x, _, hx⟩ := List.mem_map.1 this.1
  have hne : p ≠ [] := by simpa using this.2
  rw [← hx] at hne ⊢
  exact trimmed_of_trimStr hne

theorem joinSepTail_append (xs ys : List JStr) :
    joinSepTail (xs ++ ys) = joinSepTail xs ++ joinSepTail ys := by
  induction xs with
  | nil => rfl
  | cons x t ih => simp [joinSepTail, ih, List.append_assoc]

theorem joinSep_append {xs : List JStr} (ys : List JStr) (h : xs ≠ []) :
    joinSep (xs ++ ys) = joinSep xs ++ joinSepTail ys := by
  match xs, h with
  | x :: t, _ =>
    simp only [List.cons_append, joinSep, joinSepTail_append, List.append_assoc]

theorem joinSep_concat_merge (xs : List JStr) (a b : JStr) :
    joinSep (xs ++ [a ++ nlnl ++ b]) = joinSep (xs ++ [a, b]) := by
  match xs with
  | [] => simp [joinSep, joinSepTail, List.append_assoc]
  | x :: t =>
    rw [joinSep_append [a ++ nlnl ++ b] (by simp), joinSep_append [a, b] (by simp)]
    simp [joinSepTail, List.append_assoc]

/-- The paragraph material held by a state: the texts of the chunks already
flushed, followed by the trimmed buffer when it is non-empty.  Every
transition of the chunk-building loop preserves the separator-join of this
list except appending a paragraph, which extends it by that paragraph. -/
def partsOf (st : ChunkSt) : List JStr :=
  st.chunks.map Chunk.text ++ if trimStr st.buffer = [] then [] else [trimStr st.buffer]

/-- Invariant: the buffer is empty or trimmed-and-non-empty. -/
def BufInv (st : ChunkSt) : Prop := st.buffer = [] ∨ TrimmedStr st.buffer

theorem trimStr_nil : trimStr [] = [] := rfl

theorem partsOf_flush (docIdx : Nat) (dId : JStr) (e : Nat) (st : ChunkSt) :
    partsOf (flushSt docIdx dId e st) = partsOf st := by
  unfold flushSt
  by_cases hb : trimStr st.buffer = []
  · rw [if_pos hb]
  · rw [if_neg hb]
    unfold partsOf
    dsimp only
    rw [trimStr_nil, if_pos rfl, if_neg hb]
    simp

theorem bufInv_flush (docIdx : Nat) (dId : JStr) (e : Nat) (st : ChunkSt)
    (h : BufInv st) : BufInv (flushSt docIdx dId e st) := by
  unfold flushSt
  by_cases hb : trimStr st.buffer = []
  · rw [if_pos hb]
    exact h
  · rw [if_neg hb]
    exact Or.inl rfl

theorem flush_chunks_texts (docIdx : Nat) (dId : JStr) (e : Nat) (st : ChunkSt) :
    (flushSt docIdx dId e st).chunks.map Chunk.text = partsOf st := by
  unfold flushSt
  by_cases hb : trimStr st.buffer = []
  · rw [if_pos hb]
    unfold partsOf
    rw [if_pos hb]
    simp
  · rw [if_neg hb]
    unfold partsOf
    rw [if_neg hb]
    simp

theorem stepPara_parts (docIdx : Nat) (dId : JStr) (cs : Nat) (st : ChunkSt) (p : JStr)
    (hb : BufInv st) (hp : TrimmedStr p) :
    joinSep (partsOf (stepPara docIdx dId cs st p)) = joinSep (partsOf st ++ [p]) ∧
    partsOf (stepPara docIdx dId cs st p) ≠ [] ∧
    BufInv (stepPara docIdx dId cs st p) := by
  unfold stepPara
  dsimp only
  generalize hst1 : (if cs < (if st.buffer = [] then p else st.buffer ++ nlnl ++ p).length
      ∧ st.buffer ≠ [] then flushSt docIdx dId st.cursor st else st) = st1
  have h1 : BufInv st1 := by
    rw [← hst1]
    split <;> split <;> first
      | exact bufInv_flush _ _ _ _ hb
      | exact hb
  have h2 : partsOf st1 = partsOf st := by
    rw [← hst1]
    split <;> split <;> first
      | exact partsOf_flush _ _ _ _
      | rfl
  have hbnew : TrimmedStr (if st1.buffer = [] then p else st1.buffer ++ nlnl ++ p) := by
    by_cases hbe : st1.buffer = []
    · rw [if_pos hbe]
      exact hp
    · rw [if_neg hbe]
      rcases h1 with he | ht
      · exact absurd he hbe
      · exact trimmed_append ht hp
  have hst2parts : partsOf
      { st1 with
        buffer := if st1.buffer = [] then p else st1.buffer ++ nlnl ++ p
        cursor := st1.cursor + p.length + 2 } =
      st1.chunks.map Chunk.text ++
        [if st1.buffer = [] then p else st1.buffer ++ nlnl ++ p] := by
    unfold partsOf
    dsimp only
    rw [trimStr_eq_self hbnew, if_neg hbnew.1]
  have hjoin : joinSep (st1.chunks.map Chunk.text ++
      [if st1.buffer = [] then p else st1.buffer ++ nlnl ++ p]) =
      joinSep (partsOf st1 ++ [p]) := by
    by_cases hbe : st1.buffer = []
    · rw [if_pos hbe]
      unfold partsOf
      rw [hbe, trimStr_nil, if_pos rfl, List.append_nil]
    · rw [if_neg hbe]
      rcases h1 with he | ht
      · exact absurd he hbe
      · unfold partsOf
        rw [trimStr_eq_self ht, if_neg hbe]
        rw [joinSep_concat_merge]
        rw [List.append_assoc]
        rfl
  by_cases hfin : cs ≤ (if st1.buffer = [] then p else st1.buffer ++ nlnl ++ p).length
  · rw [if_pos hfin]
    refine ⟨?_, ?_, bufInv_flush _ _ _ _ (Or.inr hbnew)⟩
    · rw [partsOf_flush, hst2parts, hjoin, h2]
    · rw [partsOf_flush, hst2parts]
      simp
  · rw [if_neg hfin]
    refine ⟨?_, ?_, Or.inr hbnew⟩
    · rw [hst2parts, hjoin, h2]
    · rw [hst2parts]
      simp

theorem foldl_parts (docIdx : Nat) (dId : JStr) (cs : Nat) :
    ∀ (ps : List JStr) (st : ChunkSt), (∀ p ∈ ps, TrimmedStr p) → BufInv st →
      joinSep (partsOf (ps.foldl (stepPara docIdx dId cs) st)) =
        joinSep (partsOf st ++ ps) ∧
      BufInv (ps.foldl (stepPara docIdx dId cs) st)
  | [], st, _, hb => by
    rw [List.foldl_nil, List.append_nil]
    exact ⟨rfl, hb⟩
  | p :: ps', st, hps, hb => by
    have hstep := stepPara_parts docIdx dId cs st p hb (hps p (List.mem_cons_self p ps'))
    have ih := foldl_parts docIdx dId cs ps' (stepPara docIdx dId cs st p)
      (fun q hq => hps q (List.mem_cons_of_mem p hq)) hstep.2.2
    refine ⟨?_, ih.2⟩
    rw [List.foldl_cons, ih.1]
    rw [joinSep_append ps' hstep.2.1, hstep.1, ← joinSep_append ps' (by simp)]
    rw [List.append_assoc]
    rfl

/-- C2: for every document position, document and chunk size, the texts of
the chunks `buildChunksDoc` produces, joined with the double-newline
separator, reconstruct exactly the document's paragraph-normalized text (its
non-empty trimmed paragraphs joined with double newlines); and `buildChunks`
concatenates exactly the per-document chunk lists. -/
theorem c2_chunk_coverage :
    (∀ (docIdx : Nat) (doc : DocumentInput) (chunkSize : Nat),
      joinSep ((buildChunksDoc docIdx doc chunkSize).map Chunk.text) =
        joinSep (splitParagraphs doc.text)) ∧
    ∀ (documents : List DocumentInput) (chunkSize : Option Nat),
      buildChunks documents chunkSize =
        buildChunksFrom (chunkSize.getD DEFAULT_CHUNK_SIZE) 0 documents := by
  constructor
  · intro docIdx doc cs
    unfold buildChunksDoc
    dsimp only
    rw [flush_chunks_texts]
    have h := foldl_parts docIdx doc.id cs (splitParagraphs doc.text) ⟨[], [], 0, 0, 0⟩
      (splitParagraphs_trimmed doc.text) (Or.inl rfl)
    rw [h.1]
    rfl
  · intro documents chunkSize
    rfl

/-! ### Claim C6: entity merge equivalence -/

/-- C6: with the default 0.7 threshold, a `party` entity named "Acme Corp"
and a `party` entity named "Acme Corporation" coming from two different
chunks merge into exactly one node (the containment rule scores them 0.8)
whose `sourceChunks` is exactly the two chunk IDs and whose confidence is the
max of the two; and two entities with the same name but different declared
types always produce two nodes. -/
theorem c6_entity_merge_equivalence :
    (∀ (c1 c2 : JStr) (q1 q2 : ℚ), c1 ≠ c2 →
      mergeEntities
        [⟨c1, ⟨[⟨EntityType.party, "Acme Corp".data, none, q1⟩], []⟩⟩,
         ⟨c2, ⟨[⟨EntityType.party, "Acme Corporation".data, none, q2⟩], []⟩⟩]
        similarityThresholdDefault =
      [{ id := "n1".data, type := EntityType.party, name := "Acme Corp".data,
         properties := [], sourceChunks := [c1, c2], confidence := max q1 q2 }]) ∧
    ∀ (t1 t2 : EntityType) (nm c : JStr) (q1 q2 : ℚ), t1 ≠ t2 →
      (mergeEntities [⟨c, ⟨[⟨t1, nm, none, q1⟩, ⟨t2, nm, none, q2⟩], []⟩⟩]
        similarityThresholdDefault).length = 2 := by
  constructor
  · intro c1 c2 q1 q2 hne
    have hle : similarityThresholdDefault ≤
        calculateSimilarity ['A','c','m','e',' ','C','o','r','p','o','r','a','t','i','o','n']
          ['A','c','m','e',' ','C','o','r','p'] := by
      rw [show calculateSimilarity
          ['A','c','m','e',' ','C','o','r','p','o','r','a','t','i','o','n']
          ['A','c','m','e',' ','C','o','r','p'] = 4 / 5 from rfl]
      unfold similarityThresholdDefault
      norm_num
    unfold mergeEntities
    simp [collectRaw, groupByType, addGroup, mergeStep, hle, dedupFirst, dedupFirstAux,
      spreadMerge, assignIds, Ne.symm hne, natStr, natDigitsAux, Nat.digitChar]
  · intro t1 t2 nm c q1 q2 hne
    unfold mergeEntities
    simp [collectRaw, groupByType, addGroup, mergeStep, assignIds, Ne.symm hne]

theorem c6_entity_merge_equivalence_witness :
    mergeEntities
        [⟨"chunk-1".data, ⟨[⟨EntityType.party, "Acme Corp".data, none, 1⟩], []⟩⟩,
         ⟨"chunk-2".data, ⟨[⟨EntityType.party, "Acme Corporation".data, none, 0⟩], []⟩⟩]
        similarityThresholdDefault =
      [{ id := "n1".data, type := EntityType.party, name := "Acme Corp".data,
         properties := [], sourceChunks := ["chunk-1".data, "chunk-2".data],
         confidence := max 1 0 }] ∧
    (mergeEntities
        [⟨"chunk-1".data,
          ⟨[⟨EntityType.party, "Payment".data, none, 1⟩,
            ⟨EntityType.obligation, "Payment".data, none, 0⟩], []⟩⟩]
        similarityThresholdDefault).length = 2 :=
  ⟨c6_entity_merge_equivalence.1 "chunk-1".data "chunk-2".data 1 0 (by decide),
   c6_entity_merge_equivalence.2 EntityType.party EntityType.obligation "Payment".data
     "chunk-1".data 1 0 (by decide)⟩

/-! ### Claim C7: edge dedup, first-seen wins -/

/-- Two edges do not share the `(type, source, target)` triple. -/
def distinctTriple (e1 e2 : GraphEdge) : Prop :=
  ¬(e1.type = e2.type ∧ e1.source = e2.source ∧ e1.target = e2.target)

theorem addEdges_pairwise (nodesByName : List (JStr × GraphNode)) (ce : ChunkExtraction) :
    ∀ (st : List GraphEdge × Nat), st.1.Pairwise distinctTriple →
      (addEdges nodesByName st ce).1.Pairwise distinctTriple := by
  unfold addEdges
  generalize ce.extraction.relationships = rels
  induction rels with
  | nil => intro st hst; exact hst
  | cons rel rels ih =>
    intro st hst
    rw [List.foldl_cons]
    apply ih
    cases hs : findNodeByName nodesByName rel.sourceName with
    | none => simpa [hs] using hst
    | some s =>
      cases ht : findNodeByName nodesByName rel.targetName with
      | none => simpa [hs, ht] using hst
      | some t =>
        simp only [hs, ht]
        split
        · exact hst
        · rename_i hany
          rw [List.pairwise_append]
          refine ⟨hst, List.pairwise_singleton _ _, ?_⟩
          intro a ha b hb
          rw [List.mem_singleton] at hb
          subst hb
          rw [List.any_eq_true] at hany
          push_neg at hany
          intro hcon
          exact hany a ha (decide_eq_true hcon)

theorem foldl_addEdges_pairwise (nbn : List (JStr × GraphNode)) :
    ∀ (exts : List ChunkExtraction) (st : List GraphEdge × Nat),
      st.1.Pairwise distinctTriple →
      ((exts.foldl (addEdges nbn) st).1.Pairwise distinctTriple)
  | [], _, h => h
  | ce :: exts, st, h =>
    foldl_addEdges_pairwise nbn exts _ (addEdges_pairwise nbn ce st h)

/-- C7: in every graph built by `buildGraph` the edges have pairwise distinct
`(type, source, target)` triples — at most one edge per triple — and in the
concrete two-chunk scenario with identical relationships of arbitrary
confidences, exactly the first-seen relationship's edge survives, keeping the
first confidence and source chunk; the later relationship is dropped even
when its confidence is higher. -/
theorem c7_edge_dedup_first_seen_wins :
    (∀ (extractions : List ChunkExtraction) (dc : Nat) (em : JStr),
      (buildGraph extractions dc em).edges.Pairwise distinctTriple) ∧
    ∀ (conf1 conf2 : ℚ),
      (buildGraph
        [⟨"chunk-1".data,
          ⟨[⟨EntityType.party, "Acme Corp".data, none, 1⟩,
            ⟨EntityType.obligation, "Payment".data, none, 1⟩],
           [⟨RelationType.has_obligation, "Acme Corp".data, "Payment".data, none, conf1⟩]⟩⟩,
         ⟨"chunk-2".data,
          ⟨[⟨EntityType.party, "Acme Corp".data, none, 1⟩,
            ⟨EntityType.obligation, "Payment".data, none, 1⟩],
           [⟨RelationType.has_obligation, "Acme Corp".data, "Payment".data, none, conf2⟩]⟩⟩]
        1 "gpt-4".data).edges =
      [{ id := "e1".data, type := RelationType.has_obligation, source := "n1".data,
         target := "n2".data, properties := [], sourceChunk := "chunk-1".data,
         confidence := conf1 }] := by
  constructor
  · intro extractions dc em
    unfold buildGraph
    dsimp only
    exact foldl_addEdges_pairwise _ extractions ([], 0) List.Pairwise.nil
  · intro conf1 conf2
    have hA : similarityThresholdDefault ≤
        calculateSimilarity ['A','c','m','e',' ','C','o','r','p']
          ['A','c','m','e',' ','C','o','r','p'] := by
      rw [show calculateSimilarity ['A','c','m','e',' ','C','o','r','p']
          ['A','c','m','e',' ','C','o','r','p'] = 1 from rfl]
      unfold similarityThresholdDefault
      norm_num
    have hP : similarityThresholdDefault ≤
        calculateSimilarity ['P','a','y','m','e','n','t'] ['P','a','y','m','e','n','t'] := by
      rw [show calculateSimilarity ['P','a','y','m','e','n','t']
          ['P','a','y','m','e','n','t'] = 1 from rfl]
      unfold similarityThresholdDefault
      norm_num
    have hn1 : normalizeEntityName ['A','c','m','e',' ','C','o','r','p'] =
        ['a','c','m','e',' ','c','o','r','p'] := rfl
    have hn2 : normalizeEntityName ['P','a','y','m','e','n','t'] =
        ['p','a','y','m','e','n','t'] := rfl
    unfold buildGraph
    simp [mergeEntities, collectRaw, groupByType, addGroup, mergeStep, hA, hP, dedupFirst,
      dedupFirstAux, spreadMerge, assignIds, natStr, natDigitsAux, Nat.digitChar, setAssoc,
      lookupAssoc, findNodeByName, hn1, hn2, addEdges, nodesByNameOf]

/-! ### Claim C10: referential integrity of the knowledge graph -/

/-- Numeric value of a decimal digit character. -/
def digitVal (c : Char) : Nat := c.toNat - 48

/-- Value of a most-significant-first decimal digit string. -/
def valOfDigits (l : List Char) : Nat := l.foldl (fun acc c => acc * 10 + digitVal c) 0

theorem digitVal_digitChar : ∀ d : Nat, d < 10 → digitVal (Nat.digitChar d) = d := by decide

theorem natDigitsAux_zero : ∀ fuel : Nat, natDigitsAux fuel 0 = [] := by
  intro fuel
  cases fuel <;> rfl

theorem natDigitsAux_val : ∀ (fuel n : Nat), 0 < n → n ≤ fuel →
    valOfDigits (natDigitsAux fuel n) = n := by
  intro fuel
  induction fuel with
  | zero => intro n h1 h2; omega
  | succ fuel ih =>
    intro n h1 h2
    match n, h1 with
    | m + 1, _ =>
      show valOfDigits (natDigitsAux fuel ((m + 1) / 10) ++ [Nat.digitChar ((m + 1) % 10)]) = m + 1
      unfold valOfDigits
      rw [List.foldl_append, List.foldl_cons, List.foldl_nil]
      have hr : (m + 1) % 10 < 10 := Nat.mod_lt _ (by norm_num)
      by_cases hq : (m + 1) / 10 = 0
      · rw [hq, natDigitsAux_zero, List.foldl_nil, digitVal_digitChar _ hr]
        have := Nat.div_add_mod (m + 1) 10
        omega
      · have hpos : 0 < (m + 1) / 10 := Nat.pos_of_ne_zero hq
        have hlt : (m + 1) / 10 < m + 1 := Nat.div_lt_self (Nat.succ_pos m) (by norm_num)
        have hle : (m + 1) / 10 ≤ fuel := by omega
        have hv := ih ((m + 1) / 10) hpos hle
        unfold valOfDigits at hv
        rw [hv, digitVal_digitChar _ hr]
        have := Nat.div_add_mod (m + 1) 10
        omega

theorem natStr_succ_inj : ∀ m n : Nat, natStr (m + 1) = natStr (n + 1) → m = n := by
  intro m n h
  unfold natStr at h
  rw [if_neg (Nat.succ_ne_zero m), if_neg (Nat.succ_ne_zero n)] at h
  have h2 := congrArg valOfDigits h
  rw [natDigitsAux_val (m + 1) (m + 1) (Nat.succ_pos m) (le_refl _),
    natDigitsAux_val (n + 1) (n + 1) (Nat.succ_pos n) (le_refl _)] at h2
  omega

theorem prefIds_nodup (c : Char) (s n : Nat) (hs : 0 < s) :
    ((List.range' s n).map (fun k => c :: natStr k)).Nodup := by
  apply List.Nodup.map_on ?_ (List.nodup_range' _ _)
  intro x hx y hy hxy
  rw [List.mem_range'_1] at hx hy
  have hx1 : 0 < x := lt_of_lt_of_le hs hx.1
  have hy1 : 0 < y := lt_of_lt_of_le hs hy.1
  match x, hx1, y, hy1 with
  | a + 1, _, b + 1, _ =>
    have h2 := (List.cons.inj hxy).2
    have := natStr_succ_inj a b h2
    omega

theorem assignIds_map_id : ∀ (l : List RawEntity) (i : Nat),
    (assignIds i l).map GraphNode.id =
      (List.range' (i + 1) l.length).map (fun k => 'n' :: natStr k)
  | [], _ => rfl
  | e :: rest, i => by
    simp only [assignIds, List.map_cons, List.length_cons, List.range'_succ]
    rw [assignIds_map_id rest (i + 1)]

theorem assignIds_length : ∀ (l : List RawEntity) (i : Nat),
    (assignIds i l).length = l.length
  | [], _ => rfl
  | e :: rest, i => by
    simp only [assignIds, List.length_cons]
    rw [assignIds_length rest (i + 1)]

/-- Invariant of the edge-building fold: the counter equals the number of
edges built so far, and the edge IDs are `e1 … e⟨count⟩` in order. -/
def EdgeInv (st : List GraphEdge × Nat) : Prop :=
  st.2 = st.1.length ∧
  st.1.map GraphEdge.id = (List.range' 1 st.1.length).map (fun k => 'e' :: natStr k)

theorem addEdges_edgeInv (nbn : List (JStr × GraphNode)) (ce : ChunkExtraction) :
    ∀ (st : List GraphEdge × Nat), EdgeInv st → EdgeInv (addEdges nbn st ce) := by
  unfold addEdges
  generalize ce.extraction.relationships = rels
  induction rels with
  | nil => intro st hst; exact hst
  | cons rel rels ih =>
    intro st hst
    rw [List.foldl_cons]
    apply ih
    cases hs : findNodeByName nbn rel.sourceName with
    | none => simpa [hs] using hst
    | some s =>
      cases ht : findNodeByName nbn rel.targetName with
      | none => simpa [hs, ht] using hst
      | some t =>
        simp only [hs, ht]
        split
        · exact hst
        · obtain ⟨h1, h2⟩ := hst
          refine ⟨by simp [h1], ?_⟩
          simp only [List.map_append, List.length_append, List.map_cons, List.map_nil,
            List.length_cons, List.length_nil]
          rw [h2, h1]
          rw [show st.1.length + 0 + 1 = st.1.length + 1 from by omega]
          rw [List.range'_concat 1 st.1.length, List.map_append]
          simp [Nat.add_comm]

theorem foldl_addEdges_edgeInv (nbn : List (JStr × GraphNode)) :
    ∀ (exts : List ChunkExtraction) (st : List GraphEdge × Nat),
      EdgeInv st → EdgeInv (exts.foldl (addEdges nbn) st)
  | [], _, h => h
  | ce :: exts, st, h =>
    foldl_addEdges_edgeInv nbn exts _ (addEdges_edgeInv nbn ce st h)

theorem mem_setAssoc : ∀ (m : List (JStr × GraphNode)) (k : JStr) (v : GraphNode)
    (kv : JStr × GraphNode), kv ∈ setAssoc m k v → kv = (k, v) ∨ kv ∈ m
  | [], k, v, kv, h => by
    simp only [setAssoc, List.mem_singleton] at h
    exact Or.inl h
  | (k0, v0) :: rest, k, v, kv, h => by
    unfold setAssoc at h
    by_cases hk : k0 = k
    · rw [if_pos hk] at h
      rcases List.mem_cons.1 h with h | h
      · exact Or.inl h
      · exact Or.inr (List.mem_cons_of_mem _ h)
    · rw [if_neg hk] at h
      rcases List.mem_cons.1 h with h | h
      · exact Or.inr (h ▸ List.mem_cons_self _ _)
      · rcases mem_setAssoc rest k v kv h with h | h
        · exact Or.inl h
        · exact Or.inr (List.mem_cons_of_mem _ h)

theorem nbn_values (nodes : List GraphNode) :
    ∀ (l : List GraphNode) (m : List (JStr × GraphNode)),
      (∀ kv ∈ m, kv.2 ∈ nodes) → (∀ x ∈ l, x ∈ nodes) →
      ∀ kv ∈ l.foldl (fun m n => setAssoc m (normalizeEntityName n.name) n) m, kv.2 ∈ nodes
  | [], _, hm, _, kv, hkv => hm kv hkv
  | x :: l, m, hm, hl, kv, hkv => by
    refine nbn_values nodes l _ ?_ (fun y hy => hl y (List.mem_cons_of_mem _ hy)) kv hkv
    intro kv2 hkv2
    rcases mem_setAssoc m _ x kv2 hkv2 with h | h
    · rw [h]
      exact hl x (List.mem_cons_self _ _)
    · exact hm kv2 h

theorem lookupAssoc_val_mem : ∀ (m : List (JStr × GraphNode)) (k : JStr) (v : GraphNode),
    lookupAssoc m k = some v → ∃ kv ∈ m, kv.2 = v
  | [], _, _, h => by simp [lookupAssoc] at h
  | (k0, v0) :: rest, k, v, h => by
    unfold lookupAssoc at h
    by_cases hk : k0 = k
    · rw [if_pos hk] at h
      exact ⟨(k0, v0), List.mem_cons_self _ _, Option.some.inj h⟩
    · rw [if_neg hk] at h
      obtain ⟨kv, hkv, hv⟩ := lookupAssoc_val_mem rest k v h
      exact ⟨kv, List.mem_cons_of_mem _ hkv, hv⟩

theorem findNodeByName_val_mem (nbn : List (JStr × GraphNode)) (nm : JStr) (node : GraphNode)
    (h : findNodeByName nbn nm = some node) : ∃ kv ∈ nbn, kv.2 = node := by
  unfold findNodeByName at h
  dsimp only at h
  cases hl : lookupAssoc nbn (normalizeEntityName nm) with
  | some n0 =>
    rw [hl] at h
    obtain ⟨kv, hkv, hv⟩ := lookupAssoc_val_mem nbn _ n0 hl
    exact ⟨kv, hkv, hv.trans (Option.some.inj h)⟩
  | none =>
    rw [hl] at h
    obtain ⟨kv, hf, h2⟩ := Option.map_eq_some'.1 h
    exact ⟨kv, List.mem_of_find?_eq_some hf, h2⟩

/-- Every edge endpoint recorded so far is the ID of a node of `nodes`. -/
def endpointsIn (nodes : List GraphNode) (st : List GraphEdge × Nat) : Prop :=
  ∀ e ∈ st.1, (∃ n ∈ nodes, n.id = e.source) ∧ ∃ n ∈ nodes, n.id = e.target

theorem addEdges_endpoints (nodes : List GraphNode) (nbn : List (JStr × GraphNode))
    (hv : ∀ kv ∈ nbn, kv.2 ∈ nodes) (ce : ChunkExtraction) :
    ∀ st, endpointsIn nodes st → endpointsIn nodes (addEdges nbn st ce) := by
  unfold addEdges
  generalize ce.extraction.relationships = rels
  induction rels with
  | nil => intro st hst; exact hst
  | cons rel rels ih =>
    intro st hst
    rw [List.foldl_cons]
    apply ih
    cases hs : findNodeByName nbn rel.sourceName with
    | none => simpa [hs] using hst
    | some s =>
      cases ht : findNodeByName nbn rel.targetName with
      | none => simpa [hs, ht] using hst
      | some t =>
        simp only [hs, ht]
        split
        · exact hst
        · intro e he
          rcases List.mem_append.1 he with he | he
          · exact hst e he
          · rw [List.mem_singleton] at he
            subst he
            obtain ⟨kvs, hkvs, hvs⟩ := findNodeByName_val_mem nbn _ s hs
            obtain ⟨kvt, hkvt, hvt⟩ := findNodeByName_val_mem nbn _ t ht
            exact ⟨⟨s, hvs ▸ hv kvs hkvs, rfl⟩, ⟨t, hvt ▸ hv kvt hkvt, rfl⟩⟩

theorem foldl_addEdges_endpoints (nodes : List GraphNode) (nbn : List (JStr × GraphNode))
    (hv : ∀ kv ∈ nbn, kv.2 ∈ nodes) :
    ∀ (exts : List ChunkExtraction) (st : List GraphEdge × Nat),
      endpointsIn nodes st → endpointsIn nodes (exts.foldl (addEdges nbn) st)
  | [], _, h => h
  | ce :: exts, st, h =>
    foldl_addEdges_endpoints nodes nbn hv exts _ (addEdges_endpoints nodes nbn hv ce st h)

/-- C10: every graph built by `buildGraph` has referential integrity: node
IDs are `n1, n2, …` assigned sequentially and pairwise distinct, edge IDs are
`e1, e2, …` assigned sequentially and pairwise distinct, and every edge's
`source` and `target` is the ID of some node of the graph. -/
theorem c10_referential_integrity :
    ∀ (extractions : List ChunkExtraction) (dc : Nat) (em : JStr),
      ((buildGraph extractions dc em).nodes.map GraphNode.id =
        (List.range' 1 (buildGraph extractions dc em).nodes.length).map
          (fun k => 'n' :: natStr k)) ∧
      ((buildGraph extractions dc em).nodes.map GraphNode.id).Nodup ∧
      ((buildGraph extractions dc em).edges.map GraphEdge.id =
        (List.range' 1 (buildGraph extractions dc em).edges.length).map
          (fun k => 'e' :: natStr k)) ∧
      ((buildGraph extractions dc em).edges.map GraphEdge.id).Nodup ∧
      ∀ e ∈ (buildGraph extractions dc em).edges,
        (∃ n ∈ (buildGraph extractions dc em).nodes, n.id = e.source) ∧
        ∃ n ∈ (buildGraph extractions dc em).nodes, n.id = e.target := by
  intro extractions dc em
  have hnid : (mergeEntities extractions similarityThresholdDefault).map GraphNode.id =
      (List.range' 1 (mergeEntities extractions similarityThresholdDefault).length).map
        (fun k => 'n' :: natStr k) := by
    unfold mergeEntities
    dsimp only
    rw [assignIds_map_id, assignIds_length]
  have hei : EdgeInv (extractions.foldl
      (addEdges (nodesByNameOf (mergeEntities extractions similarityThresholdDefault)))
      ([], 0)) :=
    foldl_addEdges_edgeInv _ extractions ([], 0) ⟨rfl, rfl⟩
  have hv : ∀ kv ∈ nodesByNameOf (mergeEntities extractions similarityThresholdDefault),
      kv.2 ∈ mergeEntities extractions similarityThresholdDefault := by
    intro kv hkv
    exact nbn_values _ _ [] (fun kv2 h => absurd h (List.not_mem_nil kv2))
      (fun x hx => hx) kv hkv
  have hep : endpointsIn (mergeEntities extractions similarityThresholdDefault)
      (extractions.foldl
        (addEdges (nodesByNameOf (mergeEntities extractions similarityThresholdDefault)))
        ([], 0)) :=
    foldl_addEdges_endpoints _ _ hv extractions ([], 0)
      (fun e he => absurd he (List.not_mem_nil e))
  have hnodup :
      ((mergeEntities extractions similarityThresholdDefault).map GraphNode.id).Nodup := by
    have h := prefIds_nodup 'n' 1
      (mergeEntities extractions similarityThresholdDefault).length one_pos
    rw [← hnid] at h
    exact h
  have hedup : ((extractions.foldl
      (addEdges (nodesByNameOf (mergeEntities extractions similarityThresholdDefault)))
      ([], 0)).1.map GraphEdge.id).Nodup := by
    have h := prefIds_nodup 'e' 1 (extractions.foldl
      (addEdges (nodesByNameOf (mergeEntities extractions similarityThresholdDefault)))
      ([], 0)).1.length one_pos
    rw [← hei.2] at h
    exact h
  exact ⟨hnid, hnodup, hei.2, hedup, hep⟩

/-- A one-chunk extraction yielding two nodes and one edge. -/
def extW : List ChunkExtraction :=
  [⟨"chunk-1".data,
    ⟨[⟨EntityType.party, "Acme Corp".data, none, 1⟩,
      ⟨EntityType.obligation, "Payment".data, none, 1⟩],
     [⟨RelationType.has_obligation, "Acme Corp".data, "Payment".data, none, 1⟩]⟩⟩]

/-- The single edge `buildGraph` produces for `extW`. -/
def edgeW : GraphEdge :=
  { id := "e1".data, type := RelationType.has_obligation, source := "n1".data,
    target := "n2".data, properties := [], sourceChunk := "chunk-1".data, confidence := 1 }

theorem c10_referential_integrity_witness :
    (∃ n ∈ (buildGraph extW 1 "gpt-4".data).nodes, n.id = edgeW.source) ∧
    ∃ n ∈ (buildGraph extW 1 "gpt-4".data).nodes, n.id = edgeW.target :=
  (c10_referential_integrity extW 1 "gpt-4".data).2.2.2.2 edgeW
    (show edgeW ∈ [edgeW] from List.mem_singleton_self _)
